import Mathlib

/-!
# HeapShared (src/hotspot/share/cds/heapShared.hpp)

A shallow embedding of the parts of `class HeapShared` whose bodies are in the
header, and models of the member functions that the header only declares.

* Pointers (`oop`, `Klass*`, `KlassSubGraphInfo*`) are natural numbers; `NULL` is `0`.
* The static members of `HeapShared` are the fields of `HeapSharedState`; a member
  function is a function on that state.
* A HotSpot `assert` that fails stops the VM: a function with an assertion returns
  `Option`, and `none` is the failed assertion.
-/

namespace HeapShared

/-- An object reference (`oop`): its identity. -/
abbrev oop := Nat

/-- A class identity (`Klass*`). -/
abbrev Klass := Nat

/-- The null reference. -/
def NULL : Nat := 0

/-- Modelled from the spec: `ResourceHashtable<K, V, ...>` (utilities/resourceHash.hpp is
not among the sources), a finite map keyed by identity: `get` returns the value
stored for a key, or nothing; `put` stores a value for a key, replacing the one
already stored for it. -/
structure ResourceHashtable (V : Type) where
  entries : List (Nat × V)
deriving DecidableEq, Repr

/-- A table as `new ResourceHashtable()` makes it: no entries. -/
def ResourceHashtable.empty {V : Type} : ResourceHashtable V := ⟨[]⟩

/-- `ResourceHashtable::get(key)`: the stored value, `none` for the C++ `NULL` result. -/
def ResourceHashtable.get {V : Type} (t : ResourceHashtable V) (key : Nat) : Option V :=
  t.entries.lookup key

/-- `ResourceHashtable::put(key, value)`: replace the entry of `key`, or add one. -/
def ResourceHashtable.put {V : Type} (t : ResourceHashtable V) (key : Nat) (value : V) :
    ResourceHashtable V :=
  match t.entries.lookup key with
  | some _ => ⟨t.entries.map (fun e => if e.1 = key then (key, value) else e)⟩
  | none => ⟨(key, value) :: t.entries⟩

/-- `HeapShared::CachedOopInfo` (heapShared.hpp:186). -/
structure CachedOopInfo where
  _subgraph_info : Nat
  _referrer : oop
  _obj : oop
deriving DecidableEq, Repr

/-- The per-owner resolution state of the spec's data model (section 3). -/
inductive OwnerState where
  | Unresolved
  | Resolving
  | Resolved
  | Failed
deriving DecidableEq, Repr

/-- The VM flags that the header reads. -/
structure VMFlags where
  UseG1GC : Bool
  UseCompressedOops : Bool
  UseCompressedClassPointers : Bool
deriving DecidableEq, Repr

/-- The static members of `HeapShared` that the modelled functions read or write.
`_owner_states` and `_static_fields` are not members of the class: they stand for
the per-class resolution state of the spec and for the static fields of the
owners' mirrors, which the resolution engine writes. -/
structure HeapSharedState where
  _disable_writing : Bool
  _archived_object_cache : Option (ResourceHashtable CachedOopInfo)
  _original_object_table : Option (ResourceHashtable oop)
  _seen_objects_table : Option (ResourceHashtable Bool)
  _pending_roots : List oop
  _roots : List oop
  _owner_states : List (Klass × OwnerState)
  _static_fields : List ((Klass × Int) × oop)
deriving DecidableEq, Repr

/-- Modelled from the spec: the statics before any member function has run. Their
definitions are in heapShared.cpp, which is not among the sources; static storage
starts zeroed (`false`, `NULL` pointers), and the spec has the seen set, the cache
and the roots made by the operations below, none of them there beforehand. -/
def initial_state : HeapSharedState :=
  { _disable_writing := false
    _archived_object_cache := none
    _original_object_table := none
    _seen_objects_table := none
    _pending_roots := []
    _roots := []
    _owner_states := []
    _static_fields := [] }

/-! ## Functions whose bodies are in the header -/

/-- `HeapShared::can_write()` (heapShared.hpp:145). `INCLUDE_CDS_JAVA_HEAP` is the
build switch behind `CDS_JAVA_HEAP_ONLY` / `NOT_CDS_JAVA_HEAP`. -/
def can_write (INCLUDE_CDS_JAVA_HEAP : Bool) (flags : VMFlags) (st : HeapSharedState) : Bool :=
  if INCLUDE_CDS_JAVA_HEAP then
    if st._disable_writing then
      false
    else
      (flags.UseG1GC && flags.UseCompressedClassPointers)
  else
    false

/-- `HeapShared::disable_writing()` (heapShared.hpp:155). -/
def disable_writing (INCLUDE_CDS_JAVA_HEAP : Bool) (st : HeapSharedState) : HeapSharedState :=
  if INCLUDE_CDS_JAVA_HEAP then { st with _disable_writing := true } else st

/-- `HeapShared::init_seen_objects_table()` (heapShared.hpp:291). -/
def init_seen_objects_table (st : HeapSharedState) : Option HeapSharedState :=
  if st._seen_objects_table = none then
    some { st with _seen_objects_table := some ResourceHashtable.empty }
  else
    none

/-- `HeapShared::delete_seen_objects_table()` (heapShared.hpp:295). -/
def delete_seen_objects_table (st : HeapSharedState) : Option HeapSharedState :=
  if st._seen_objects_table ≠ none then
    some { st with _seen_objects_table := none }
  else
    none

/-- `HeapShared::create_archived_object_cache(create_orig_table)` (heapShared.hpp:343). -/
def create_archived_object_cache (create_orig_table : Bool) (st : HeapSharedState) :
    HeapSharedState :=
  let st1 := { st with _archived_object_cache := some ResourceHashtable.empty }
  if create_orig_table then
    { st1 with _original_object_table := some ResourceHashtable.empty }
  else
    { st1 with _original_object_table := none }

/-- `HeapShared::destroy_archived_object_cache()` (heapShared.hpp:353). -/
def destroy_archived_object_cache (st : HeapSharedState) : HeapSharedState :=
  let st1 := { st with _archived_object_cache := none }
  if st1._original_object_table ≠ none then
    { st1 with _original_object_table := none }
  else
    st1

/-- `HeapShared::archived_object_cache()` (heapShared.hpp:361). -/
def archived_object_cache (st : HeapSharedState) : Option (ResourceHashtable CachedOopInfo) :=
  st._archived_object_cache

/-- `HeapShared::get_original_object(archived_object)` (heapShared.hpp:364); `none` is
the failed assertion `_original_object_table != NULL`. -/
def get_original_object (st : HeapSharedState) (archived_object : oop) : Option oop :=
  match st._original_object_table with
  | none => none
  | some table =>
    match table.get archived_object with
    | none => some NULL
    | some r => some r

/-- The member functions with a body in the header that write a static. -/
inductive Op where
  | disable_writing
  | init_seen_objects_table
  | delete_seen_objects_table
  | create_archived_object_cache (create_orig_table : Bool)
  | destroy_archived_object_cache
deriving DecidableEq, Repr

/-- One call of a header-defined member function in a build with
`INCLUDE_CDS_JAVA_HEAP`; `none` when an assertion of the callee fails. -/
def Op.call : Op → HeapSharedState → Option HeapSharedState
  | .disable_writing, st => some (HeapShared.disable_writing true st)
  | .init_seen_objects_table, st => HeapShared.init_seen_objects_table st
  | .delete_seen_objects_table, st => HeapShared.delete_seen_objects_table st
  | .create_archived_object_cache b, st => some (HeapShared.create_archived_object_cache b st)
  | .destroy_archived_object_cache, st => some (HeapShared.destroy_archived_object_cache st)

/-- A sequence of calls, in order; `none` as soon as an assertion fails. -/
def call_all : List Op → HeapSharedState → Option HeapSharedState
  | [], st => some st
  | op :: rest, st =>
    match op.call st with
    | none => none
    | some st1 => call_all rest st1

/-- `ArchivedKlassSubGraphInfoRecord` (heapShared.hpp:114). `_entry_field_records` holds
the pairs of field offset and value flattened, as the declaration comment says;
a `NULL` array is `none`. -/
structure ArchivedKlassSubGraphInfoRecord where
  _k : Klass
  _is_full_module_graph : Bool
  _has_non_early_klasses : Bool
  _entry_field_records : Option (List Int)
  _subgraph_object_klasses : Option (List Klass)
deriving DecidableEq, Repr

/-- `ArchivedKlassSubGraphInfoRecord::klass()` (heapShared.hpp:130). -/
def ArchivedKlassSubGraphInfoRecord.klass (r : ArchivedKlassSubGraphInfoRecord) : Klass :=
  r._k

/-- `HeapShared::record_equals_compact_hashtable_entry(value, key, len_unused)`
(heapShared.hpp:224): pointer equality of the record's class and the key. -/
def record_equals_compact_hashtable_entry (value : ArchivedKlassSubGraphInfoRecord)
    (key : Klass) (len_unused : Int) : Bool :=
  let _ := len_unused
  value.klass == key

/-- Modelled from the spec: `OffsetCompactHashtable<K, V, EQUALS>`
(classfile/compactHashtable.hpp is not among the sources), the immutable, read-only
hash index of section 4.2: a fixed array of buckets, each the entries (hash,
value) whose hash falls into it. -/
structure OffsetCompactHashtable (V : Type) where
  buckets : List (List (Nat × V))
deriving DecidableEq, Repr

/-- All values stored in the table, bucket by bucket. -/
def OffsetCompactHashtable.values {V : Type} (t : OffsetCompactHashtable V) : List V :=
  t.buckets.flatten.map Prod.snd

/-- Modelled from the spec: the scan of one bucket of the compact table
(compactHashtable.hpp is not among the sources): the first entry with the hash
asked for that `EQUALS` accepts. -/
def OffsetCompactHashtable.scan {V : Type} (EQUALS : V → Nat → Int → Bool)
    (key : Nat) (hash : Nat) (len : Int) : List (Nat × V) → Option V
  | [] => none
  | (h, value) :: rest =>
    if h = hash ∧ EQUALS value key len = true then some value
    else OffsetCompactHashtable.scan EQUALS key hash len rest

/-- Modelled from the spec: `lookup(key, hash, len)` of the compact table
(`lookup(owner) -> Option<&Record>`, section 4.2): the bucket is chosen by the hash
alone and its entries are offered to the table's `EQUALS` parameter; nothing is
found in a table without buckets. -/
def OffsetCompactHashtable.lookup {V : Type} (EQUALS : V → Nat → Int → Bool)
    (t : OffsetCompactHashtable V) (key : Nat) (hash : Nat) (len : Int) : Option V :=
  if t.buckets.length = 0 then none
  else OffsetCompactHashtable.scan EQUALS key hash len
    (t.buckets.getD (hash % t.buckets.length) [])

/-- `HeapShared::RunTimeKlassSubGraphInfoTable` (heapShared.hpp:230): the compact
table instantiated with `record_equals_compact_hashtable_entry`. -/
abbrev RunTimeKlassSubGraphInfoTable := OffsetCompactHashtable ArchivedKlassSubGraphInfoRecord

/-- A lookup in the run-time sub-graph table, with the `EQUALS` of its typedef. -/
def RunTimeKlassSubGraphInfoTable.lookup (t : RunTimeKlassSubGraphInfoTable)
    (key : Klass) (hash : Nat) (len : Int) : Option ArchivedKlassSubGraphInfoRecord :=
  OffsetCompactHashtable.lookup record_equals_compact_hashtable_entry t key hash len

/-! ## Member functions that the header only declares -/

/-- Modelled from the spec: `HeapShared::has_been_seen_during_subgraph_recording(obj)`
(declared at heapShared.hpp:317, body in heapShared.cpp): membership in the
transient seen set of section 4.1; `none` when there is no seen set. -/
def has_been_seen_during_subgraph_recording (st : HeapSharedState) (obj : oop) :
    Option Bool :=
  match st._seen_objects_table with
  | none => none
  | some table => some (table.get obj).isSome

/-- Modelled from the spec: `HeapShared::set_has_been_seen_during_subgraph_recording(obj)`
(declared at heapShared.hpp:318): adds `obj` to the seen set of the recording. -/
def set_has_been_seen_during_subgraph_recording (st : HeapSharedState) (obj : oop) :
    Option HeapSharedState :=
  match st._seen_objects_table with
  | none => none
  | some table => some { st with _seen_objects_table := some (table.put obj true) }

/-- Modelled from the spec: one recording, from `start_recording_subgraph` to
`done_recording_subgraph` (declared at heapShared.hpp:313-315), as far as the seen
set goes (section 4.1): it is made at the start (`init_seen_objects_table`), every
walked object is added, and it is discarded at the end
(`delete_seen_objects_table`). -/
def recording (walked : List oop) (st : HeapSharedState) : Option HeapSharedState :=
  match init_seen_objects_table st with
  | none => none
  | some st1 =>
    match walked.foldlM set_has_been_seen_during_subgraph_recording st1 with
    | none => none
    | some st2 => delete_seen_objects_table st2

/-- Recordings one after the other, each given by the objects it walks. -/
def recordings : List (List oop) → HeapSharedState → Option HeapSharedState
  | [], st => some st
  | walked :: rest, st =>
    match recording walked st with
    | none => none
    | some st1 => recordings rest st1

/-- Modelled from the spec: `HeapShared::find_archived_heap_object(obj)` (declared at
heapShared.hpp:374): the archived copy in the cache entry of `obj`, `NULL` when
`obj` has no entry; `none` outside the lifetime of the cache. -/
def find_archived_heap_object (st : HeapSharedState) (obj : oop) : Option oop :=
  match archived_object_cache st with
  | none => none
  | some cache =>
    match cache.get obj with
    | some p => some p._obj
    | none => some NULL

/-- Modelled from the spec: `HeapShared::archive_object(obj)` (declared at
heapShared.hpp:375), the contract `archive(original) -> archivedCopy` of section
4.1 for one object: an original with a cache entry gets the existing copy; otherwise
a copy is allocated and the entry with its provenance (owning sub-graph, referrer,
copy) is recorded, in the original-object table too when there is one. The
allocator is the external collaborator of section 6: `allocate n obj` is the
address it gives the copy of `obj` when `n` objects are archived, `NULL` when it
has no room, and then nothing is recorded. The walk over the reference fields is
`archive_reachable_objects_from`, which calls this function per object. -/
def archive_object (allocate : Nat → oop → oop) (subgraph_info : Nat) (referrer : oop)
    (st : HeapSharedState) (obj : oop) : Option (oop × HeapSharedState) :=
  match archived_object_cache st with
  | none => none
  | some cache =>
    match cache.get obj with
    | some p => some (p._obj, st)
    | none =>
      let archived_oop := allocate cache.entries.length obj
      if archived_oop = NULL then
        some (NULL, st)
      else
        some (archived_oop,
          { st with
            _archived_object_cache := some (cache.put obj ⟨subgraph_info, referrer, archived_oop⟩)
            _original_object_table := st._original_object_table.map
              (fun table => table.put archived_oop obj) })

/-- One `archive_object` call of a dump: the sub-graph and referrer through which
the object was reached, and the object. -/
structure ArchiveCall where
  subgraph_info : Nat
  referrer : oop
  obj : oop
deriving DecidableEq, Repr

/-- The calls of a dump in order; the state after the last one. -/
def archive_all (allocate : Nat → oop → oop) :
    List ArchiveCall → HeapSharedState → Option HeapSharedState
  | [], st => some st
  | c :: rest, st =>
    match archive_object allocate c.subgraph_info c.referrer st c.obj with
    | none => none
    | some (_, st1) => archive_all allocate rest st1

/-- Modelled from the spec: `HeapShared::append_root(obj)` (declared at
heapShared.hpp:413), `append(ref) -> index` of section 4.3: the reference goes to
the end of the dump-time array `_pending_roots`, and its index is returned. -/
def append_root (st : HeapSharedState) (obj : oop) : Nat × HeapSharedState :=
  (st._pending_roots.length, { st with _pending_roots := st._pending_roots ++ [obj] })

/-- Several `append_root` calls in order: the indices returned and the last state. -/
def append_roots : List oop → HeapSharedState → List Nat × HeapSharedState
  | [], st => ([], st)
  | obj :: rest, st =>
    let r := append_root st obj
    let rs := append_roots rest r.2
    (r.1 :: rs.1, rs.2)

/-- Modelled from the spec: `HeapShared::copy_roots()` (declared at heapShared.hpp:320):
the snapshot of the root table (section 6: length and reference slots) is made from
the references appended so far. -/
def copy_roots (st : HeapSharedState) : HeapSharedState :=
  { st with _roots := st._pending_roots }

/-- Modelled from the spec: `HeapShared::roots()` (declared at heapShared.hpp:416):
the array behind the handle `_roots`. -/
def roots (st : HeapSharedState) : List oop :=
  st._roots

/-- Modelled from the spec: `HeapShared::clear_root(index)` (declared at
heapShared.hpp:420), `clear(index)` of section 4.3: nulls the slot. -/
def clear_root (st : HeapSharedState) (index : Nat) : HeapSharedState :=
  { st with _roots := (roots st).set index NULL }

/-- Modelled from the spec: `HeapShared::get_root(index, clear)` (declared at
heapShared.hpp:417), `get(index, clearOnRead)` of section 4.3: reads the slot and,
if `clear`, nulls it after the read. An index past the array reads `NULL`. -/
def get_root (st : HeapSharedState) (index : Nat) (clear : Bool) : oop × HeapSharedState :=
  let result := (roots st).getD index NULL
  if clear then (result, clear_root st index) else (result, st)

/-- Several `clear_root` calls in order. -/
def clear_roots : List Nat → HeapSharedState → HeapSharedState
  | [], st => st
  | index :: rest, st => clear_roots rest (clear_root st index)

/-- Whether the original-object table exists after a sequence of calls, read off the
calls alone: the last call that creates or destroys the cache decides, and
`live` stands when there is none. -/
def original_table_live : Bool → List Op → Bool
  | live, [] => live
  | _, Op.create_archived_object_cache b :: rest => original_table_live b rest
  | _, Op.destroy_archived_object_cache :: rest => original_table_live false rest
  | live, _ :: rest => original_table_live live rest

/-- The strictly alternating sequence init, delete, init, delete, ... of `n` rounds. -/
def alternating_seen_calls : Nat → List Op
  | 0 => []
  | n + 1 => Op.init_seen_objects_table :: Op.delete_seen_objects_table ::
      alternating_seen_calls n

/-! ## Concrete inputs -/

/-- G1 with compressed class pointers and without compressed oops. -/
def flags_g1_no_compressed_oops : VMFlags :=
  { UseG1GC := true, UseCompressedOops := false, UseCompressedClassPointers := true }

/-- An allocator that hands out consecutive addresses from 1000 on. -/
def bump_allocate (n : Nat) (_obj : oop) : oop := 1000 + n

/-- The dump after object 5 was archived at 1000 as the entry point of sub-graph 1. -/
def dump_after_5 : HeapSharedState :=
  { initial_state with
    _archived_object_cache := some ⟨[(5, ⟨1, 0, 1000⟩)]⟩
    _original_object_table := some ⟨[(1000, 5)]⟩ }

/-- The dump after object 6 was archived at 1001, reached from object 5. -/
def dump_after_5_6 : HeapSharedState :=
  { initial_state with
    _archived_object_cache := some ⟨[(6, ⟨1, 5, 1001⟩), (5, ⟨1, 0, 1000⟩)]⟩
    _original_object_table := some ⟨[(1001, 6), (1000, 5)]⟩ }

/-- A recording in progress during that dump: objects 5 and 6 have been seen. -/
def recording_5_6 : HeapSharedState :=
  { dump_after_5_6 with _seen_objects_table := some ⟨[(6, true), (5, true)]⟩ }

/-- A state whose root array holds three references. -/
def three_roots : HeapSharedState :=
  { initial_state with _roots := [10, 20, 30] }

/-- The record of owner 1: its sub-graph needs class 2. -/
def record_A : ArchivedKlassSubGraphInfoRecord :=
  { _k := 1, _is_full_module_graph := false, _has_non_early_klasses := false
    _entry_field_records := some [8, 0], _subgraph_object_klasses := some [2] }

/-- The record of owner 2: its sub-graph needs class 1. -/
def record_B : ArchivedKlassSubGraphInfoRecord :=
  { _k := 2, _is_full_module_graph := false, _has_non_early_klasses := false
    _entry_field_records := some [16, 1], _subgraph_object_klasses := some [1] }

/-- A table of one bucket in which both records are stored under the same hash. -/
def colliding_table : RunTimeKlassSubGraphInfoTable :=
  { buckets := [[(7, record_A), (7, record_B)]] }

/-- The hash that sends every class to 7. -/
def constant_hash (_k : Klass) : Nat := 7

theorem Op.call_disable_writing (op : Op) (st st1 : HeapSharedState)
    (h : op.call st = some st1) :
    st1._disable_writing = (st._disable_writing || decide (op = Op.disable_writing)) := by
  cases op <;>
    simp only [Op.call, HeapShared.disable_writing, HeapShared.init_seen_objects_table,
      HeapShared.delete_seen_objects_table, HeapShared.create_archived_object_cache,
      HeapShared.destroy_archived_object_cache] at h
  · cases h; simp
  · split at h
    · cases h; simp
    · cases h
  · split at h
    · cases h; simp
    · cases h
  · cases h; split <;> simp
  · cases h; split <;> simp

theorem call_all_keeps_disabled (ops : List Op) (st st1 : HeapSharedState)
    (hd : st._disable_writing = true) (h : call_all ops st = some st1) :
    st1._disable_writing = true := by
  induction ops generalizing st with
  | nil => simp only [call_all] at h; cases h; exact hd
  | cons op rest ih =>
    simp only [call_all] at h
    cases hc : op.call st with
    | none => rw [hc] at h; cases h
    | some s =>
      rw [hc] at h
      refine ih s ?_ h
      rw [Op.call_disable_writing op st s hc, hd]; rfl

theorem call_all_keeps_enabled (ops : List Op) (st st1 : HeapSharedState)
    (hn : Op.disable_writing ∉ ops) (hd : st._disable_writing = false)
    (h : call_all ops st = some st1) :
    st1._disable_writing = false := by
  induction ops generalizing st with
  | nil => simp only [call_all] at h; cases h; exact hd
  | cons op rest ih =>
    simp only [call_all] at h
    simp only [List.mem_cons, not_or] at hn
    cases hc : op.call st with
    | none => rw [hc] at h; cases h
    | some s =>
      rw [hc] at h
      refine ih s hn.2 ?_ h
      rw [Op.call_disable_writing op st s hc, hd]
      simpa using fun e => hn.1 e.symm

/-- C6: `can_write()` evaluated without compressed oops. With G1 and compressed class
pointers, writing not disabled and Java-heap CDS compiled in, `can_write()` returns
true although `UseCompressedOops` is false; what it does guarantee is `UseG1GC` and
`UseCompressedClassPointers` (and the build switch, and writing not disabled). -/
theorem can_write_ignores_UseCompressedOops :
    can_write true flags_g1_no_compressed_oops initial_state = true ∧
    flags_g1_no_compressed_oops.UseCompressedOops = false ∧
    (∀ (b : Bool) (flags : VMFlags) (st : HeapSharedState), can_write b flags st = true →
      b = true ∧ st._disable_writing = false ∧ flags.UseG1GC = true ∧
      flags.UseCompressedClassPointers = true) ∧
    (∀ (flags : VMFlags) (st : HeapSharedState) (v : Bool),
      can_write true { flags with UseCompressedOops := v } st = can_write true flags st) := by
  refine ⟨by decide, by decide, ?_, ?_⟩
  · intro b flags st h
    unfold can_write at h
    cases b <;> cases hd : st._disable_writing <;> simp_all
  · intro flags st v
    rfl

/-- C8: disabling heap writing is absorbing. After `disable_writing()`, `can_write()`
is false for every setting of the flags (in either build); a second
`disable_writing()` changes nothing; no member function with a body in the header
turns `_disable_writing` back to false, over one call or any sequence of calls, so
`can_write()` stays false; and from the initial statics, as long as
`disable_writing()` has not been called, `can_write()` is
`UseG1GC && UseCompressedClassPointers` (in the build that has `_disable_writing`). -/
theorem disable_writing_is_absorbing :
    (∀ (b : Bool) (flags : VMFlags) (st : HeapSharedState),
      can_write b flags (disable_writing b st) = false) ∧
    (∀ (b : Bool) (st : HeapSharedState),
      disable_writing b (disable_writing b st) = disable_writing b st) ∧
    (∀ (op : Op) (st st1 : HeapSharedState), st._disable_writing = true →
      op.call st = some st1 → st1._disable_writing = true) ∧
    (∀ (ops : List Op) (flags : VMFlags) (st st1 : HeapSharedState),
      call_all ops (disable_writing true st) = some st1 →
      st1._disable_writing = true ∧ can_write true flags st1 = false) ∧
    (∀ (ops : List Op) (flags : VMFlags) (st1 : HeapSharedState),
      Op.disable_writing ∉ ops → call_all ops initial_state = some st1 →
      can_write true flags st1 = (flags.UseG1GC && flags.UseCompressedClassPointers)) := by
  refine ⟨?_, ?_, ?_, ?_, ?_⟩
  · intro b flags st
    cases b <;> simp [can_write, disable_writing]
  · intro b st
    cases b <;> simp [disable_writing]
  · intro op st st1 hd h
    rw [Op.call_disable_writing op st st1 h, hd]; rfl
  · intro ops flags st st1 h
    have hd := call_all_keeps_disabled ops (disable_writing true st) st1
      (by simp [disable_writing]) h
    exact ⟨hd, by simp [can_write, hd]⟩
  · intro ops flags st1 hn h
    have hd := call_all_keeps_enabled ops initial_state st1 hn rfl h
    simp [can_write, hd]

/-- C8 at concrete calls: with G1 and compressed class pointers `can_write()` is true
at the start and after calls other than `disable_writing()`, and false after it. -/
theorem disable_writing_is_absorbing_witness :
    can_write true flags_g1_no_compressed_oops initial_state = true ∧
    can_write true flags_g1_no_compressed_oops
      (create_archived_object_cache true initial_state) = true ∧
    can_write true flags_g1_no_compressed_oops (disable_writing true initial_state) = false ∧
    can_write true flags_g1_no_compressed_oops
      (create_archived_object_cache true (disable_writing true initial_state)) = false :=
  ⟨by decide,
   disable_writing_is_absorbing.2.2.2.2 [Op.create_archived_object_cache true]
     flags_g1_no_compressed_oops _ (by decide) rfl,
   disable_writing_is_absorbing.1 true flags_g1_no_compressed_oops initial_state,
   (disable_writing_is_absorbing.2.2.2.1 [Op.create_archived_object_cache true]
     flags_g1_no_compressed_oops initial_state _ rfl).2⟩

theorem lookup_cons_eq {V : Type} (a k : Nat) (b : V) (l : List (Nat × V)) :
    List.lookup a ((k, b) :: l) = if a = k then some b else List.lookup a l := by
  rw [List.lookup_cons]
  by_cases h : a = k
  · have hb : (a == k) = true := by simpa using h
    rw [hb, if_pos h]
  · have hb : (a == k) = false := by simpa using h
    rw [hb, if_neg h]

theorem lookup_map_replace_same {V : Type} (key : Nat) (value : V) (l : List (Nat × V))
    (h : (List.lookup key l).isSome = true) :
    List.lookup key (l.map (fun e => if e.1 = key then (key, value) else e)) = some value := by
  induction l with
  | nil => simp at h
  | cons e rest ih =>
    obtain ⟨k, x⟩ := e
    rw [lookup_cons_eq] at h
    rw [List.map_cons]
    by_cases hk : k = key
    · rw [if_pos hk, lookup_cons_eq, if_pos rfl]
    · have hk2 : ¬ key = k := fun e => hk e.symm
      rw [if_neg hk2] at h
      rw [if_neg hk, lookup_cons_eq, if_neg hk2]
      exact ih h

theorem lookup_map_replace_other {V : Type} (key other : Nat) (value : V) (l : List (Nat × V))
    (hne : other ≠ key) :
    List.lookup other (l.map (fun e => if e.1 = key then (key, value) else e)) =
      List.lookup other l := by
  induction l with
  | nil => rfl
  | cons e rest ih =>
    obtain ⟨k, x⟩ := e
    rw [List.map_cons]
    by_cases hk : k = key
    · rw [if_pos hk, lookup_cons_eq, lookup_cons_eq, if_neg hne, ih]
      have : ¬ other = k := by rw [hk]; exact hne
      rw [if_neg this]
    · rw [if_neg hk, lookup_cons_eq, lookup_cons_eq, ih]

theorem ResourceHashtable.get_put_same {V : Type} (t : ResourceHashtable V) (key : Nat)
    (value : V) : (t.put key value).get key = some value := by
  unfold ResourceHashtable.put ResourceHashtable.get
  cases h : t.entries.lookup key with
  | none => simp only; rw [lookup_cons_eq, if_pos rfl]
  | some w => simp only; exact lookup_map_replace_same key value t.entries (by rw [h]; rfl)

theorem ResourceHashtable.get_put_other {V : Type} (t : ResourceHashtable V) (key other : Nat)
    (value : V) (hne : other ≠ key) : (t.put key value).get other = t.get other := by
  unfold ResourceHashtable.put ResourceHashtable.get
  cases h : t.entries.lookup key with
  | none => simp only; rw [lookup_cons_eq, if_neg hne]
  | some w => simp only; exact lookup_map_replace_other key other value t.entries hne

theorem call_all_original_table (ops : List Op) (st st1 : HeapSharedState)
    (h : call_all ops st = some st1) :
    st1._original_object_table.isSome =
      original_table_live st._original_object_table.isSome ops := by
  induction ops generalizing st with
  | nil => simp only [call_all] at h; cases h; rfl
  | cons op rest ih =>
    simp only [call_all] at h
    cases hc : op.call st with
    | none => rw [hc] at h; cases h
    | some s =>
      rw [hc] at h
      rw [ih s h]
      cases op <;>
        simp only [Op.call, HeapShared.disable_writing, HeapShared.init_seen_objects_table,
          HeapShared.delete_seen_objects_table, HeapShared.create_archived_object_cache,
          HeapShared.destroy_archived_object_cache] at hc
      · cases hc; simp [original_table_live]
      · split at hc
        · cases hc; simp [original_table_live]
        · cases hc
      · split at hc
        · cases hc; simp [original_table_live]
        · cases hc
      · cases hc
        rename_i b
        cases b <;> simp [original_table_live]
      · cases hc
        simp only [original_table_live]
        split <;> simp_all

/-- C9: reverse lookup of the identity cache. The assertion of `get_original_object`
holds exactly when the original-object table exists; after any sequence of
header-defined calls from the initial statics the table exists exactly when the last
call that created or destroyed the cache was `create_archived_object_cache(true)`;
it is absent after `create_archived_object_cache(false)` and after
`destroy_archived_object_cache()`. With the table present, `get_original_object(a)`
is the original stored for `a` (the one a `put` stored), and `NULL` without an
entry, so `NULL` for every `a` right after `create_archived_object_cache(true)`.
Destroying leaves both tables absent and destroying again changes nothing. -/
theorem get_original_object_reverse_lookup :
    (∀ (st : HeapSharedState) (a : oop),
      (get_original_object st a).isSome = st._original_object_table.isSome) ∧
    (∀ (ops : List Op) (st1 : HeapSharedState), call_all ops initial_state = some st1 →
      st1._original_object_table.isSome = original_table_live false ops) ∧
    (∀ (b : Bool) (st : HeapSharedState),
      (create_archived_object_cache b st)._original_object_table.isSome = b) ∧
    (∀ (st : HeapSharedState) (a : oop),
      get_original_object (create_archived_object_cache false st) a = none ∧
      get_original_object (destroy_archived_object_cache st) a = none) ∧
    (∀ (st : HeapSharedState) (table : ResourceHashtable oop) (a : oop),
      st._original_object_table = some table →
      get_original_object st a = some ((table.get a).getD NULL)) ∧
    (∀ (st : HeapSharedState) (table : ResourceHashtable oop) (a o : oop),
      st._original_object_table = some (table.put a o) →
      get_original_object st a = some o) ∧
    (∀ (st : HeapSharedState) (a : oop),
      get_original_object (create_archived_object_cache true st) a = some NULL) ∧
    (∀ (st : HeapSharedState),
      (destroy_archived_object_cache st)._archived_object_cache = none ∧
      (destroy_archived_object_cache st)._original_object_table = none ∧
      destroy_archived_object_cache (destroy_archived_object_cache st) =
        destroy_archived_object_cache st) := by
  refine ⟨?_, ?_, ?_, ?_, ?_, ?_, ?_, ?_⟩
  · intro st a
    unfold get_original_object
    cases st._original_object_table with
    | none => rfl
    | some table => cases hg : table.get a <;> simp [hg]
  · intro ops st1 h
    exact call_all_original_table ops initial_state st1 h
  · intro b st
    cases b <;> simp [create_archived_object_cache]
  · intro st a
    constructor
    · simp [get_original_object, create_archived_object_cache]
    · unfold get_original_object destroy_archived_object_cache
      cases h : st._original_object_table <;> simp [h]
  · intro st table a h
    unfold get_original_object
    rw [h]
    cases hg : table.get a <;> simp [hg]
  · intro st table a o h
    unfold get_original_object
    rw [h]
    simp [ResourceHashtable.get_put_same]
  · intro st a
    simp [get_original_object, create_archived_object_cache, ResourceHashtable.get,
      ResourceHashtable.empty, List.lookup]
  · intro st
    unfold destroy_archived_object_cache
    cases h : st._original_object_table <;> simp [h]

/-- C9 at a concrete dump: the copy at 1000 maps back to object 5, an address that is
no copy maps to `NULL`, and without the table the assertion fails. -/
theorem get_original_object_reverse_lookup_witness :
    get_original_object dump_after_5_6 1000 = some 5 ∧
    get_original_object dump_after_5_6 7 = some NULL ∧
    get_original_object (create_archived_object_cache false dump_after_5_6) 1000 = none ∧
    get_original_object (destroy_archived_object_cache dump_after_5_6) 1000 = none :=
  ⟨get_original_object_reverse_lookup.2.2.2.2.1 dump_after_5_6 ⟨[(1001, 6), (1000, 5)]⟩ 1000 rfl,
   get_original_object_reverse_lookup.2.2.2.2.1 dump_after_5_6 ⟨[(1001, 6), (1000, 5)]⟩ 7 rfl,
   (get_original_object_reverse_lookup.2.2.2.1 dump_after_5_6 1000).1,
   (get_original_object_reverse_lookup.2.2.2.1 dump_after_5_6 1000).2⟩

theorem set_seen_fold (walked : List oop) (st : HeapSharedState)
    (h : st._seen_objects_table ≠ none) :
    ∃ st2, walked.foldlM set_has_been_seen_during_subgraph_recording st = some st2 ∧
      st2._seen_objects_table ≠ none ∧
      st2._archived_object_cache = st._archived_object_cache ∧
      st2._original_object_table = st._original_object_table := by
  induction walked generalizing st with
  | nil => exact ⟨st, rfl, h, rfl, rfl⟩
  | cons o rest ih =>
    cases ht : st._seen_objects_table with
    | none => exact absurd ht h
    | some table =>
      have hs : set_has_been_seen_during_subgraph_recording st o =
          some { st with _seen_objects_table := some (table.put o true) } := by
        simp [set_has_been_seen_during_subgraph_recording, ht]
      obtain ⟨st2, h1, h2, h3, h4⟩ :=
        ih { st with _seen_objects_table := some (table.put o true) } (by simp)
      refine ⟨st2, ?_, h2, h3, h4⟩
      rw [List.foldlM_cons, hs]
      exact h1

theorem recording_from_absent (walked : List oop) (st : HeapSharedState)
    (h : st._seen_objects_table = none) :
    ∃ st1, recording walked st = some st1 ∧ st1._seen_objects_table = none ∧
      st1._archived_object_cache = st._archived_object_cache ∧
      st1._original_object_table = st._original_object_table := by
  obtain ⟨st2, h1, h2, h3, h4⟩ :=
    set_seen_fold walked { st with _seen_objects_table := some ResourceHashtable.empty }
      (by simp)
  refine ⟨{ st2 with _seen_objects_table := none }, ?_, rfl, h3, h4⟩
  simp only [recording, init_seen_objects_table, h, if_true, h1, delete_seen_objects_table]
  rw [if_pos h2]

theorem recordings_from_absent (rounds : List (List oop)) (st : HeapSharedState)
    (h : st._seen_objects_table = none) :
    ∃ st1, recordings rounds st = some st1 ∧ st1._seen_objects_table = none ∧
      st1._archived_object_cache = st._archived_object_cache ∧
      st1._original_object_table = st._original_object_table := by
  induction rounds generalizing st with
  | nil => exact ⟨st, rfl, h, rfl, rfl⟩
  | cons walked rest ih =>
    obtain ⟨s, h1, h2, h3, h4⟩ := recording_from_absent walked st h
    obtain ⟨s1, g1, g2, g3, g4⟩ := ih s h2
    refine ⟨s1, ?_, g2, g3.trans h3, g4.trans h4⟩
    simp only [recordings, h1]
    exact g1

theorem alternating_from_absent (n : Nat) (st : HeapSharedState)
    (h : st._seen_objects_table = none) :
    call_all (alternating_seen_calls n) st = some st := by
  induction n with
  | zero => rfl
  | succ n ih =>
    simp only [alternating_seen_calls, call_all, Op.call, init_seen_objects_table, h, if_true,
      delete_seen_objects_table]
    simp only [ne_eq, reduceCtorEq, not_false_eq_true, if_true]
    have : ({ st with _seen_objects_table := none } : HeapSharedState) = st := by
      cases st; simp_all
    rw [this]
    exact ih

/-- C7: the seen set is scoped to one recording. Whatever earlier recordings put into
the table, after `delete_seen_objects_table()` and then `init_seen_objects_table()`
(both succeed) the table is a new, empty one and no object has been seen. From the absent state, any number of
strictly alternating init/delete calls passes every assertion and ends with the
table absent (the statics are as before), and so does any number of recordings
that walk objects in between; one more `init` then succeeds. Neither operation
changes the archived object cache or the original-object table. -/
theorem seen_objects_table_is_per_recording :
    (∀ (st : HeapSharedState), st._seen_objects_table ≠ none →
      ∃ st1 st2, delete_seen_objects_table st = some st1 ∧
        init_seen_objects_table st1 = some st2 ∧
        st2._seen_objects_table = some ResourceHashtable.empty ∧
        ∀ o : oop, has_been_seen_during_subgraph_recording st2 o = some false) ∧
    (∀ (n : Nat) (st : HeapSharedState), st._seen_objects_table = none →
      call_all (alternating_seen_calls n) st = some st ∧
      (init_seen_objects_table st).isSome = true) ∧
    (∀ (rounds : List (List oop)) (st : HeapSharedState), st._seen_objects_table = none →
      ∃ st1, recordings rounds st = some st1 ∧ st1._seen_objects_table = none ∧
        st1._archived_object_cache = st._archived_object_cache ∧
        st1._original_object_table = st._original_object_table) ∧
    (∀ (st st1 : HeapSharedState), init_seen_objects_table st = some st1 →
      st1._archived_object_cache = st._archived_object_cache ∧
      st1._original_object_table = st._original_object_table) ∧
    (∀ (st st1 : HeapSharedState), delete_seen_objects_table st = some st1 →
      st1._seen_objects_table = none ∧
      st1._archived_object_cache = st._archived_object_cache ∧
      st1._original_object_table = st._original_object_table) := by
  refine ⟨?_, ?_, ?_, ?_, ?_⟩
  · intro st h
    refine ⟨{ st with _seen_objects_table := none },
      { st with _seen_objects_table := some ResourceHashtable.empty }, ?_, ?_, ?_, ?_⟩
    · simp [delete_seen_objects_table, h]
    · simp [init_seen_objects_table]
    · rfl
    · intro o
      simp [has_been_seen_during_subgraph_recording, ResourceHashtable.get,
        ResourceHashtable.empty]
  · intro n st h
    exact ⟨alternating_from_absent n st h, by simp [init_seen_objects_table, h]⟩
  · exact recordings_from_absent
  · intro st st1 h
    unfold init_seen_objects_table at h
    split at h
    · cases h; exact ⟨rfl, rfl⟩
    · cases h
  · intro st st1 h
    unfold delete_seen_objects_table at h
    split at h
    · cases h; exact ⟨rfl, rfl, rfl⟩
    · cases h

/-- C7 at a concrete recording: objects 5 and 6 were seen; after delete and init
nothing has been seen, and the cache of the dump is as it was. -/
theorem seen_objects_table_is_per_recording_witness :
    has_been_seen_during_subgraph_recording recording_5_6 5 = some true ∧
    (∃ st1 st2, delete_seen_objects_table recording_5_6 = some st1 ∧
      init_seen_objects_table st1 = some st2 ∧
      st2._seen_objects_table = some ResourceHashtable.empty ∧
      ∀ o : oop, has_been_seen_during_subgraph_recording st2 o = some false) ∧
    (∃ st1, recordings [[5, 6], [5]] dump_after_5_6 = some st1 ∧
      st1._seen_objects_table = none ∧
      st1._archived_object_cache = dump_after_5_6._archived_object_cache ∧
      st1._original_object_table = dump_after_5_6._original_object_table) :=
  ⟨by decide,
   seen_objects_table_is_per_recording.1 recording_5_6 (by decide),
   seen_objects_table_is_per_recording.2.2.1 [[5, 6], [5]] dump_after_5_6 rfl⟩

theorem OffsetCompactHashtable.scan_sound {V : Type} (EQUALS : V → Nat → Int → Bool)
    (key hash : Nat) (len : Int) (bucket : List (Nat × V)) (v : V)
    (h : OffsetCompactHashtable.scan EQUALS key hash len bucket = some v) :
    EQUALS v key len = true ∧ (hash, v) ∈ bucket := by
  induction bucket with
  | nil => simp [OffsetCompactHashtable.scan] at h
  | cons e rest ih =>
    obtain ⟨h0, value⟩ := e
    simp only [OffsetCompactHashtable.scan] at h
    split at h
    · rename_i hc
      cases h
      exact ⟨hc.2, by rw [hc.1]; exact List.mem_cons_self _ _⟩
    · obtain ⟨h1, h2⟩ := ih h
      exact ⟨h1, List.mem_cons_of_mem _ h2⟩

theorem OffsetCompactHashtable.lookup_sound {V : Type} (EQUALS : V → Nat → Int → Bool)
    (t : OffsetCompactHashtable V) (key hash : Nat) (len : Int) (v : V)
    (h : OffsetCompactHashtable.lookup EQUALS t key hash len = some v) :
    EQUALS v key len = true ∧ v ∈ t.values := by
  unfold OffsetCompactHashtable.lookup at h
  split at h
  · cases h
  · rename_i hlen
    obtain ⟨h1, h2⟩ := OffsetCompactHashtable.scan_sound EQUALS key hash len _ v h
    refine ⟨h1, ?_⟩
    have hlt : hash % t.buckets.length < t.buckets.length :=
      Nat.mod_lt _ (Nat.pos_of_ne_zero hlen)
    rw [List.getD_eq_getElem _ _ hlt] at h2
    simp only [OffsetCompactHashtable.values, List.mem_map, List.mem_flatten]
    exact ⟨(hash, v), ⟨_, List.getElem_mem hlt, h2⟩, rfl⟩

theorem RunTimeKlassSubGraphInfoTable.lookup_klass (t : RunTimeKlassSubGraphInfoTable)
    (key : Klass) (hash : Nat) (len : Int) (r : ArchivedKlassSubGraphInfoRecord)
    (h : RunTimeKlassSubGraphInfoTable.lookup t key hash len = some r) :
    r.klass = key ∧ r ∈ t.values := by
  obtain ⟨h1, h2⟩ := OffsetCompactHashtable.lookup_sound _ t key hash len r h
  exact ⟨by simpa [record_equals_compact_hashtable_entry] using h1, h2⟩

/-- C4: the run-time sub-graph index is keyed by owner identity alone.
`record_equals_compact_hashtable_entry(r, k, len)` is true exactly when
`r->klass() == k`, whatever `len` is; so a lookup for owner `k` in the
`RunTimeKlassSubGraphInfoTable` returns, if anything, a stored record whose
`klass()` is `k`, under any hash and in any table. -/
theorem record_equals_is_owner_identity :
    (∀ (r : ArchivedKlassSubGraphInfoRecord) (k : Klass) (len : Int),
      record_equals_compact_hashtable_entry r k len = true ↔ r.klass = k) ∧
    (∀ (r : ArchivedKlassSubGraphInfoRecord) (k : Klass) (len len2 : Int),
      record_equals_compact_hashtable_entry r k len =
        record_equals_compact_hashtable_entry r k len2) ∧
    (∀ (t : RunTimeKlassSubGraphInfoTable) (k : Klass) (hash : Nat) (len : Int)
      (r : ArchivedKlassSubGraphInfoRecord),
      RunTimeKlassSubGraphInfoTable.lookup t k hash len = some r →
      r.klass = k ∧ r ∈ t.values) := by
  refine ⟨?_, ?_, ?_⟩
  · intro r k len
    simp [record_equals_compact_hashtable_entry]
  · intro r k len len2
    rfl
  · exact RunTimeKlassSubGraphInfoTable.lookup_klass

/-- C4 at a concrete table: two owners stored under the same hash in one bucket; the
lookup for owner 2 passes over the record of owner 1 and returns the record of
owner 2, and an owner without a record finds nothing. -/
theorem record_equals_is_owner_identity_witness :
    RunTimeKlassSubGraphInfoTable.lookup colliding_table 2 (constant_hash 2) 0 = some record_B ∧
    record_B.klass = 2 ∧
    RunTimeKlassSubGraphInfoTable.lookup colliding_table 3 (constant_hash 3) 0 = none :=
  ⟨by decide,
   (record_equals_is_owner_identity.2.2 colliding_table 2 (constant_hash 2) 0 record_B
      (by decide)).1,
   by decide⟩

/-! ## Theorems: the root table -/

theorem get_root_result (st : HeapSharedState) (index : Nat) (clear : Bool) :
    (get_root st index clear).1 = ((roots st)[index]?).getD NULL := by
  cases clear <;> simp [get_root]

theorem get_root_state (st : HeapSharedState) (index : Nat) (clear : Bool) :
    (get_root st index clear).2 = if clear then clear_root st index else st := by
  cases clear <;> simp [get_root]

theorem roots_clear_root (st : HeapSharedState) (index : Nat) :
    roots (clear_root st index) = (roots st).set index NULL := rfl

theorem roots_clear_roots_other (cleared : List Nat) (st : HeapSharedState) (k : Nat)
    (h : k ∉ cleared) : (roots (clear_roots cleared st))[k]? = (roots st)[k]? := by
  induction cleared generalizing st with
  | nil => rfl
  | cons i rest ih =>
    simp only [List.mem_cons, not_or] at h
    simp only [clear_roots]
    rw [ih (clear_root st i) h.2, roots_clear_root]
    exact List.getElem?_set_ne (fun e => h.1 e.symm)

theorem append_roots_pending (objs : List oop) (st : HeapSharedState) :
    (append_roots objs st).2._pending_roots = st._pending_roots ++ objs := by
  induction objs generalizing st with
  | nil => simp [append_roots]
  | cons o rest ih =>
    simp only [append_roots]
    rw [ih]
    simp [append_root]

theorem append_roots_indices (objs : List oop) (st : HeapSharedState) :
    (append_roots objs st).1 =
      (List.range objs.length).map (fun j => st._pending_roots.length + j) := by
  induction objs generalizing st with
  | nil => simp [append_roots]
  | cons o rest ih =>
    simp only [append_roots, List.length_cons]
    rw [ih, List.range_succ_eq_map, List.map_cons, List.map_map]
    simp only [append_root, List.length_append, List.length_singleton, Nat.add_zero]
    congr 1
    apply List.map_congr_left
    intro j _
    simp only [Function.comp_apply]
    omega

/-- C2: clearing a root. For a valid index `i`: after `clear_root(i)` a read
`get_root(i, false)` returns `NULL`; `get_root(i, true)` returns the reference
stored at `i` and leaves the slot empty, so the next read (clearing or not)
returns `NULL`; a read without `clear` changes nothing; and every other slot `j`
reads the same after either operation. -/
theorem clear_root_empties_slot (st : HeapSharedState) (i : Nat)
    (h : i < (roots st).length) :
    (get_root (clear_root st i) i false).1 = NULL ∧
    (get_root st i true).1 = (roots st)[i] ∧
    (get_root (get_root st i true).2 i false).1 = NULL ∧
    (get_root (get_root st i true).2 i true).1 = NULL ∧
    (get_root st i false).2 = st ∧
    (∀ j : Nat, j ≠ i →
      (get_root (clear_root st i) j false).1 = (get_root st j false).1 ∧
      (get_root (get_root st i true).2 j false).1 = (get_root st j false).1) := by
  have hset : ((roots (clear_root st i))[i]?).getD NULL = NULL := by
    rw [roots_clear_root, List.getElem?_set_self h]; rfl
  refine ⟨?_, ?_, ?_, ?_, ?_, ?_⟩
  · rw [get_root_result]; exact hset
  · rw [get_root_result, List.getElem?_eq_getElem h]; rfl
  · rw [get_root_result, get_root_state]; exact hset
  · rw [get_root_result, get_root_state]; exact hset
  · rfl
  · intro j hj
    have hne : ((roots (clear_root st i))[j]?) = (roots st)[j]? := by
      rw [roots_clear_root]; exact List.getElem?_set_ne (fun e => hj e.symm)
    refine ⟨?_, ?_⟩
    · rw [get_root_result, get_root_result, hne]
    · rw [get_root_result, get_root_result, get_root_state]
      simp only [if_true]
      rw [hne]

/-- C2 at a concrete table: the three-slot array, index 1. -/
theorem clear_root_empties_slot_witness :
    (get_root (clear_root three_roots 1) 1 false).1 = NULL ∧
    (get_root three_roots 1 true).1 = 20 ∧
    (get_root (get_root three_roots 1 true).2 1 false).1 = NULL ∧
    (get_root (clear_root three_roots 1) 2 false).1 = 30 := by
  have h := clear_root_empties_slot three_roots 1 (by decide)
  exact ⟨h.1, h.2.1, h.2.2.1, by decide⟩

/-- C3: append and read back. Starting a dump with no pending roots, the calls
`append_root(objs[0]), append_root(objs[1]), ...` return the indices `0, 1, ...`
(distinct, none reused); after `copy_roots`, `get_root` at the index that the
`k`-th call returned yields `objs[k]`, also after any other slots were cleared. -/
theorem append_root_round_trip (objs : List oop) (st : HeapSharedState) (k : Nat)
    (hp : st._pending_roots = []) (h : k < objs.length) :
    (append_roots objs st).1 = List.range objs.length ∧
    (append_roots objs st).1.Nodup ∧
    (append_roots objs st).1[k]? = some k ∧
    (get_root (copy_roots (append_roots objs st).2) k false).1 = objs[k] ∧
    (∀ cleared : List Nat, k ∉ cleared →
      (get_root (clear_roots cleared (copy_roots (append_roots objs st).2)) k false).1
        = objs[k]) := by
  have hidx : (append_roots objs st).1 = List.range objs.length := by
    rw [append_roots_indices, hp]
    simp
  have hroots : roots (copy_roots (append_roots objs st).2) = objs := by
    simp only [roots, copy_roots]
    rw [append_roots_pending, hp]
    rfl
  refine ⟨hidx, ?_, ?_, ?_, ?_⟩
  · rw [hidx]; exact List.nodup_range _
  · rw [hidx]; simp [h]
  · rw [get_root_result, hroots, List.getElem?_eq_getElem h]; rfl
  · intro cleared hk
    rw [get_root_result, roots_clear_roots_other cleared _ k hk, hroots,
      List.getElem?_eq_getElem h]
    rfl

/-- C3 at a concrete dump: three appended references, the second read back. -/
theorem append_root_round_trip_witness :
    (append_roots [5, 6, 7] initial_state).1 = [0, 1, 2] ∧
    (get_root (copy_roots (append_roots [5, 6, 7] initial_state).2) 1 false).1 = 6 := by
  have h := append_root_round_trip [5, 6, 7] initial_state 1 rfl (by decide)
  exact ⟨h.1, h.2.2.2.1⟩

/-! ## Theorems: the identity object cache -/

theorem lookup_none_not_mem {V : Type} (key : Nat) (l : List (Nat × V))
    (h : List.lookup key l = none) : key ∉ l.map Prod.fst := by
  induction l with
  | nil => simp
  | cons e rest ih =>
    obtain ⟨k, x⟩ := e
    rw [lookup_cons_eq] at h
    by_cases hk : key = k
    · rw [if_pos hk] at h; cases h
    · rw [if_neg hk] at h
      simp only [List.map_cons, List.mem_cons, not_or]
      exact ⟨hk, ih h⟩

theorem find_of_archive_object (allocate : Nat → oop → oop) (info : Nat) (ref : oop)
    (st st1 : HeapSharedState) (o c : oop)
    (h : archive_object allocate info ref st o = some (c, st1)) (hc : c ≠ NULL) :
    find_archived_heap_object st1 o = some c := by
  unfold archive_object archived_object_cache at h
  unfold find_archived_heap_object archived_object_cache
  cases hcache : st._archived_object_cache with
  | none => rw [hcache] at h; cases h
  | some cache =>
    rw [hcache] at h
    simp only at h
    cases hg : cache.get o with
    | some p =>
      rw [hg] at h
      simp only [Option.some.injEq, Prod.mk.injEq] at h
      obtain ⟨h1, h2⟩ := h
      subst h2
      rw [hcache]
      simp only [hg, h1]
    | none =>
      rw [hg] at h
      simp only at h
      split at h
      · simp only [Option.some.injEq, Prod.mk.injEq] at h
        exact absurd h.1.symm hc
      · simp only [Option.some.injEq, Prod.mk.injEq] at h
        obtain ⟨h1, h2⟩ := h
        subst h2
        simp only [ResourceHashtable.get_put_same, h1]

theorem archive_object_of_find (allocate : Nat → oop → oop) (info : Nat) (ref : oop)
    (st : HeapSharedState) (o c : oop)
    (h : find_archived_heap_object st o = some c) (hc : c ≠ NULL) :
    archive_object allocate info ref st o = some (c, st) := by
  unfold find_archived_heap_object archived_object_cache at h
  unfold archive_object archived_object_cache
  cases hcache : st._archived_object_cache with
  | none => rw [hcache] at h; cases h
  | some cache =>
    rw [hcache] at h
    simp only at h
    cases hg : cache.get o with
    | some p =>
      rw [hg] at h
      simp only [Option.some.injEq] at h
      simp only [hg, h]
    | none =>
      rw [hg] at h
      simp only [Option.some.injEq] at h
      exact absurd h.symm hc

theorem find_stable (allocate : Nat → oop → oop) (info : Nat) (ref : oop)
    (st st2 : HeapSharedState) (o c o2 c2 : oop)
    (h : find_archived_heap_object st o = some c) (hc : c ≠ NULL)
    (h2 : archive_object allocate info ref st o2 = some (c2, st2)) :
    find_archived_heap_object st2 o = some c := by
  by_cases ho : o2 = o
  · subst ho
    rw [archive_object_of_find allocate info ref st o2 c h hc] at h2
    simp only [Option.some.injEq, Prod.mk.injEq] at h2
    rw [← h2.2]; exact h
  · unfold archive_object archived_object_cache at h2
    unfold find_archived_heap_object archived_object_cache at h ⊢
    cases hcache : st._archived_object_cache with
    | none => rw [hcache] at h; cases h
    | some cache =>
      rw [hcache] at h h2
      simp only at h h2
      cases hg : cache.get o2 with
      | some p =>
        rw [hg] at h2
        simp only [Option.some.injEq, Prod.mk.injEq] at h2
        rw [← h2.2, hcache]; exact h
      | none =>
        rw [hg] at h2
        simp only at h2
        split at h2
        · simp only [Option.some.injEq, Prod.mk.injEq] at h2
          rw [← h2.2, hcache]; exact h
        · simp only [Option.some.injEq, Prod.mk.injEq] at h2
          rw [← h2.2]
          simp only
          rw [ResourceHashtable.get_put_other _ _ _ _ (fun e => ho e.symm)]
          exact h

theorem archive_all_stable (allocate : Nat → oop → oop) (calls : List ArchiveCall)
    (st st1 : HeapSharedState) (o c : oop)
    (h : find_archived_heap_object st o = some c) (hc : c ≠ NULL)
    (h1 : archive_all allocate calls st = some st1) :
    find_archived_heap_object st1 o = some c := by
  induction calls generalizing st with
  | nil => simp only [archive_all, Option.some.injEq] at h1; rw [← h1]; exact h
  | cons call rest ih =>
    simp only [archive_all] at h1
    cases ha : archive_object allocate call.subgraph_info call.referrer st call.obj with
    | none => rw [ha] at h1; cases h1
    | some r =>
      obtain ⟨c2, s⟩ := r
      rw [ha] at h1
      exact ih s (find_stable allocate _ _ st s o c call.obj c2 h hc ha) h1

theorem archive_object_keeps_cache (allocate : Nat → oop → oop) (info : Nat) (ref : oop)
    (st : HeapSharedState) (o : oop) (cache : ResourceHashtable CachedOopInfo)
    (hcache : st._archived_object_cache = some cache)
    (hnd : (cache.entries.map Prod.fst).Nodup) :
    ∃ c st1 cache1, archive_object allocate info ref st o = some (c, st1) ∧
      st1._archived_object_cache = some cache1 ∧ (cache1.entries.map Prod.fst).Nodup := by
  unfold archive_object archived_object_cache
  rw [hcache]
  simp only
  cases hg : cache.get o with
  | some p => exact ⟨p._obj, st, cache, rfl, hcache, hnd⟩
  | none =>
    simp only
    split
    · exact ⟨NULL, st, cache, rfl, hcache, hnd⟩
    · refine ⟨_, _, _, rfl, rfl, ?_⟩
      have hl : cache.entries.lookup o = none := hg
      unfold ResourceHashtable.put
      rw [hl]
      simp only [List.map_cons, List.nodup_cons]
      exact ⟨lookup_none_not_mem o cache.entries hl, hnd⟩

theorem archive_all_keeps_cache (allocate : Nat → oop → oop) (calls : List ArchiveCall)
    (st : HeapSharedState) (cache : ResourceHashtable CachedOopInfo)
    (hcache : st._archived_object_cache = some cache)
    (hnd : (cache.entries.map Prod.fst).Nodup) :
    ∃ st1 cache1, archive_all allocate calls st = some st1 ∧
      st1._archived_object_cache = some cache1 ∧ (cache1.entries.map Prod.fst).Nodup := by
  induction calls generalizing st cache with
  | nil => exact ⟨st, cache, rfl, hcache, hnd⟩
  | cons call rest ih =>
    obtain ⟨c, s, cache1, h1, h2, h3⟩ :=
      archive_object_keeps_cache allocate call.subgraph_info call.referrer st call.obj cache
        hcache hnd
    obtain ⟨s1, cache2, g1, g2, g3⟩ := ih s cache1 h2 h3
    refine ⟨s1, cache2, ?_, g2, g3⟩
    simp only [archive_all, h1]
    exact g1

/-- C1: dedup. For any allocator: (1) a successful `archive_object(o)` leaves the copy
it returned as what `find_archived_heap_object(o)` answers; (2) once
`find_archived_heap_object(o)` answers a copy `c`, after any further
`archive_object` calls (any objects, sub-graphs, referrers) it still answers `c`,
and `archive_object(o)`, through whatever sub-graph or referrer, returns `c` and
changes nothing; (3) from `create_archived_object_cache` on, every sequence
of calls runs and the cache holds at most one entry, so one archived copy, per
original object. -/
theorem archive_object_dedup (allocate : Nat → oop → oop) :
    (∀ (info : Nat) (ref : oop) (st st1 : HeapSharedState) (o c : oop),
      archive_object allocate info ref st o = some (c, st1) → c ≠ NULL →
      find_archived_heap_object st1 o = some c) ∧
    (∀ (calls : List ArchiveCall) (st st1 : HeapSharedState) (o c : oop),
      find_archived_heap_object st o = some c → c ≠ NULL →
      archive_all allocate calls st = some st1 →
      find_archived_heap_object st1 o = some c ∧
      ∀ (info : Nat) (ref : oop), archive_object allocate info ref st1 o = some (c, st1)) ∧
    (∀ (b : Bool) (calls : List ArchiveCall) (st : HeapSharedState),
      ∃ st1 cache, archive_all allocate calls (create_archived_object_cache b st) = some st1 ∧
        st1._archived_object_cache = some cache ∧
        ∀ e1 ∈ cache.entries, ∀ e2 ∈ cache.entries, e1.1 = e2.1 → e1.2._obj = e2.2._obj) := by
  refine ⟨?_, ?_, ?_⟩
  · intro info ref st st1 o c h hc
    exact find_of_archive_object allocate info ref st st1 o c h hc
  · intro calls st st1 o c h hc h1
    have hf := archive_all_stable allocate calls st st1 o c h hc h1
    exact ⟨hf, fun info ref => archive_object_of_find allocate info ref st1 o c hf hc⟩
  · intro b calls st
    obtain ⟨st1, cache, h1, h2, h3⟩ :=
      archive_all_keeps_cache allocate calls (create_archived_object_cache b st)
        ResourceHashtable.empty (by cases b <;> rfl) (by simp [ResourceHashtable.empty])
    refine ⟨st1, cache, h1, h2, ?_⟩
    intro e1 he1 e2 he2 he
    rw [List.inj_on_of_nodup_map h3 he1 he2 he]

/-- C1 at a concrete dump: object 5 is archived as the entry point of sub-graph 1,
object 6 through it, and object 5 is then reached again from sub-graph 2 through
referrer 6; the second request returns the copy of the first. -/
theorem archive_object_dedup_witness :
    archive_object bump_allocate 1 0 (create_archived_object_cache true initial_state) 5
      = some (1000, dump_after_5) ∧
    archive_all bump_allocate [⟨1, 5, 6⟩] dump_after_5 = some dump_after_5_6 ∧
    find_archived_heap_object dump_after_5_6 5 = some 1000 ∧
    archive_object bump_allocate 2 6 dump_after_5_6 5 = some (1000, dump_after_5_6) := by
  have h := (archive_object_dedup bump_allocate).2.1 [⟨1, 5, 6⟩] dump_after_5 dump_after_5_6
    5 1000 (by decide) (by decide) (by decide)
  exact ⟨by decide, by decide, h.1, h.2 2 6⟩

/-! ## Theorems: the resolution engine -/

end HeapShared
